import Mathlib

/-!
Verification of the PartL-docs-monitor repository.

The embedding below translates `scripts/check_partl.py` (the discovery /
change-detection engine), together with the registry readers in
`scripts/render_site.py` and `scripts/make_thumbs.py`, into Lean.
Strings are handled through their character lists so that every
definition is executable and kernel-reducible.  Python's `in` test on
strings becomes a substring test on character lists, `str.lower` becomes
an ASCII lowering map (the tokens involved are all ASCII), and CPython's
stable `sorted` is realised as a sort by the lexicographic key
(score descending, original index ascending), which is exactly what a
stable sort on the score alone produces.
-/

namespace PartL

/-- ASCII lowering of one character, as CPython does for ASCII input. -/
def lowerChar (c : Char) : Char :=
  if 65 ≤ c.toNat ∧ c.toNat ≤ 90 then Char.ofNat (c.toNat + 32) else c

/-- `s.lower()` for ASCII strings. -/
def lowerStr (s : String) : String := ⟨s.data.map lowerChar⟩

/-- `hasInfixL hay needle` is true when `needle` occurs contiguously in
`hay` (the empty needle always occurs). -/
def hasInfixL (hay needle : List Char) : Bool :=
  if needle.isPrefixOf hay then true else
  match hay with
  | [] => false
  | _ :: t => hasInfixL t needle

/-- Python's `needle in hay` substring test. -/
def containsTok (hay needle : String) : Bool := hasInfixL hay.data needle.data

/-- Python's `s.startswith(p)`. -/
def startsWithL (s p : String) : Bool := p.data.isPrefixOf s.data

/-- Python's `s.endswith(p)`. -/
def endsWithL (s p : String) : Bool := p.data.isSuffixOf s.data

/-- Include-token table of `check_partl.py` (`INCLUDE`): `INCLUDE.get(j, [])`. -/
def INCLUDE (j : String) : List String :=
  if j = "england" then ["approved document l", "part l", "conservation of fuel"]
  else if j = "wales" then ["approved document l", "part l", "conservation of fuel"]
  else if j = "scotland" then ["technical handbook", "section 6", "energy"]
  else if j = "northern_ireland" then ["technical booklet f", "conservation of fuel"]
  else if j = "ireland" then ["technical guidance document l", "tgd l", "part l", "dwellings"]
  else []

/-- Exclude-token table of `check_partl.py` (`EXCLUDE`): `EXCLUDE.get(j, [])`. -/
def EXCLUDE (j : String) : List String :=
  if j = "ireland" then ["non-domestic"] else []

/-- One token test of `score_for`: `if w in t or w in h`. -/
def tokenMatch (w t h : String) : Bool := containsTok t w || containsTok h w

/-- The PDF-likelihood bonus test of `score_for`:
`h.endswith(".pdf") or ".pdf?" in h or "download" in h`. -/
def pdfBonus (h : String) : Bool :=
  endsWithL h ".pdf" || containsTok h ".pdf?" || containsTok h "download"

/-- `score_for(jurisdiction, text, href)` from `check_partl.py`:
+2 per include token matched in text or href, −3 per exclude token
matched, +3 if the href looks like a PDF/download link. -/
def score_for (j text href : String) : Int :=
  let t := lowerStr text
  let h := lowerStr href
  let s : Int := (INCLUDE j).foldl (fun acc w => if tokenMatch w t h then acc + 2 else acc) 0
  let s := (EXCLUDE j).foldl (fun acc w => if tokenMatch w t h then acc - 3 else acc) s
  if pdfBonus h then s + 3 else s

/-- Number of include tokens of jurisdiction `j` matched by the
(lowered) text/href pair. -/
def countIncl (j t h : String) : Nat := (INCLUDE j).countP (fun w => tokenMatch w t h)

/-- Number of exclude tokens of jurisdiction `j` matched by the
(lowered) text/href pair. -/
def countExcl (j t h : String) : Nat := (EXCLUDE j).countP (fun w => tokenMatch w t h)

lemma foldl_add_two (l : List String) (t h : String) (a : Int) :
    l.foldl (fun acc w => if tokenMatch w t h then acc + 2 else acc) a
      = a + 2 * (l.countP (fun w => tokenMatch w t h) : Int) := by
  induction l generalizing a with
  | nil => simp
  | cons x xs ih =>
    by_cases hx : tokenMatch x t h
    · simp only [List.foldl, hx, if_pos, List.countP_cons, ih]
      push_cast [hx]
      ring
    · simp only [List.foldl, hx, if_neg, List.countP_cons, ih]
      simp [hx]

lemma foldl_sub_three (l : List String) (t h : String) (a : Int) :
    l.foldl (fun acc w => if tokenMatch w t h then acc - 3 else acc) a
      = a - 3 * (l.countP (fun w => tokenMatch w t h) : Int) := by
  induction l generalizing a with
  | nil => simp
  | cons x xs ih =>
    by_cases hx : tokenMatch x t h
    · simp only [List.foldl, hx, if_pos, List.countP_cons, ih]
      push_cast [hx]
      ring
    · simp only [List.foldl, hx, if_neg, List.countP_cons, ih]
      simp [hx]

/-- Closed form of the additive score: includes at +2 each, excludes at
−3 each, plus the PDF bonus of +3. -/
lemma score_for_closed (j text href : String) :
    score_for j text href
      = 2 * (countIncl j (lowerStr text) (lowerStr href) : Int)
        - 3 * (countExcl j (lowerStr text) (lowerStr href) : Int)
        + (if pdfBonus (lowerStr href) then 3 else 0) := by
  unfold countIncl countExcl
  simp only [score_for]
  rw [foldl_add_two, foldl_sub_three]
  by_cases hb : pdfBonus (lowerStr href)
  · rw [if_pos hb, if_pos hb]
    ring
  · rw [if_neg hb, if_neg hb]
    ring

/-- A scored anchor of a collection page, decorated with its original
document position `idx` (Python's construction order of `cand`). -/
structure Cand where
  sc : Int
  idx : Nat
  url : String
  text : String
deriving DecidableEq

/-- Host component of a URL: the text between `"://"` and the next `/`.
Used only to state (not to compute) the same-domain property. -/
def hostOf (u : String) : String :=
  let rec go : List Char → List Char
    | [] => []
    | ':' :: '/' :: '/' :: rest => rest.takeWhile (fun c => c ≠ '/')
    | _ :: rest => go rest
  ⟨go u.data⟩

/-- Partial model of `urllib.parse.urljoin(base, url)` for the cases the
scripts exercise: an absolute `url` is returned unchanged; a
root-relative `url` replaces the path of `base`; otherwise `url`
replaces the final path component of `base`.  Only the absolute branch
is relied on in concrete theorems below. -/
def urljoin (base url : String) : String :=
  if startsWithL url "http://" || startsWithL url "https://" then url
  else if startsWithL url "/" then
    let pre := (hostOf base).data
    let scheme := base.data.takeWhile (fun c => c ≠ ':')
    ⟨scheme ++ (':' :: '/' :: '/' :: pre) ++ url.data⟩
  else
    ⟨(base.data.reverse.dropWhile (fun c => c ≠ '/')).reverse ++ url.data⟩

/-- The Python candidate list (lines building `cand` in
`detail_candidates`): anchors in document order, each scored; only
anchors with a strictly positive score are kept, and each gets the URL
joined against the base page.  `i` numbers the anchors in document
order, recorded as `idx`. -/
def candListFrom (j base : String) : Nat → List (String × String) → List Cand
  | _, [] => []
  | i, (t, h) :: rest =>
    let sc := score_for j t h
    if sc > 0 then ⟨sc, i, urljoin base h, t⟩ :: candListFrom j base (i + 1) rest
    else candListFrom j base (i + 1) rest

/-- The candidate list of a whole page, numbered from the first
anchor. -/
def candList (j : String) (anchors : List (String × String)) (base : String) : List Cand :=
  candListFrom j base 0 anchors

/-- Strict "comes before" order of Python's
`sorted(cand, key=lambda x: -x[0])`: higher score first, ties broken by
smaller original index (stability of `sorted`). -/
def candBefore (a b : Cand) : Bool := a.sc > b.sc || (a.sc == b.sc && a.idx < b.idx)

/-- Insert into a list sorted by `candBefore`. -/
def insertCand (x : Cand) : List Cand → List Cand
  | [] => [x]
  | y :: ys => if candBefore x y then x :: y :: ys else y :: insertCand x ys

/-- Sort by `candBefore`: the model of Python's stable
`sorted(cand, key=lambda x: -x[0])` (indices are distinct, so sorting by
the lexicographic key (−score, index) is exactly the stable sort). -/
def sortCands : List Cand → List Cand
  | [] => []
  | x :: xs => insertCand x (sortCands xs)

/-- The `seen`-set de-duplication loop of `detail_candidates`: keep the
first occurrence of every URL. -/
def dedupCands (seen : List String) : List Cand → List Cand
  | [] => []
  | c :: cs =>
    if seen.contains c.url then dedupCands seen cs
    else c :: dedupCands (c.url :: seen) cs

/-- The ranked candidate list of `detail_candidates`, still carrying
scores and original indices: sorted, de-duplicated by URL, truncated to
12 entries (`out[:12]`). -/
def rankedCands (j : String) (anchors : List (String × String)) (base : String) : List Cand :=
  (dedupCands [] (sortCands (candList j anchors base))).take 12

/-- `detail_candidates(coll_html, base, j)` from `check_partl.py`,
over the anchor list `(text, href)` of the page: the `(url, text)` pairs
the main loop will visit, in order. -/
def detail_candidates (j : String) (anchors : List (String × String)) (base : String) :
    List (String × String) :=
  (rankedCands j anchors base).map (fun c => (c.url, c.text))

/-! ### Version strings

The rule version is stored as `"vMAJOR.MINOR.PATCH"`.  The code parses it
with `entry["rule_version"][1:].split(".")` and `int(..)`, pads to three
components, bumps according to the change kind, and re-formats with
`f"v{v[0]}.{v[1]}.{v[2]}"`.  Decimal printing is modelled by a
fuel-indexed digit expansion (identical output to Python's `str(int)`),
parsing by the usual base-10 fold (identical to `int(str)` on digit
strings). -/

/-- Decimal digit characters of `n`, most significant first.  `fuel`
only bounds the recursion; any `fuel > n` gives the full expansion. -/
def natChars (fuel n : Nat) : List Char :=
  match fuel with
  | 0 => []
  | fuel + 1 => if n < 10 then [Nat.digitChar n] else natChars fuel (n / 10) ++ [Nat.digitChar (n % 10)]

/-- Decimal rendering of a natural number, as Python's `str`/f-string. -/
def natToString (n : Nat) : String := ⟨natChars (n + 1) n⟩

/-- Python's `int` on a decimal digit string (as a character list). -/
def toNatParse (cs : List Char) : Nat := cs.foldl (fun a c => a * 10 + (c.toNat - 48)) 0

/-- Python's `s.split(".")` on a character list. -/
def splitOnDot : List Char → List (List Char)
  | [] => [[]]
  | c :: rest => if c = '.' then [] :: splitOnDot rest else (splitOnDot rest).modifyHead (c :: ·)

/-- `entry["rule_version"][1:].split(".")` followed by `int` on each
component. -/
def parseVersion (s : String) : List Nat := (splitOnDot (s.data.drop 1)).map toNatParse

/-- `v = [int(x) for x in v] + [0] * (3 - len(v))`. -/
def padTo3 (v : List Nat) : List Nat := v ++ List.replicate (3 - v.length) 0

/-- The `if major ... elif numeric ... else` bump of lines 473–481:
returns the bumped component list together with the change kind. -/
def bumpAndKind (major numeric : Bool) (v : List Nat) : List Nat × String :=
  if major then ([v.getD 0 0 + 1, 0, 0], "MAJOR")
  else if numeric then ([v.getD 0 0, v.getD 1 0 + 1, 0], "NUMERIC")
  else ([v.getD 0 0, v.getD 1 0, v.getD 2 0 + 1], "MINOR")

/-- `f"v{v[0]}.{v[1]}.{v[2]}"`. -/
def formatVList (v : List Nat) : String :=
  ⟨'v' :: natChars (v.getD 0 0 + 1) (v.getD 0 0)
    ++ '.' :: natChars (v.getD 1 0 + 1) (v.getD 1 0)
    ++ '.' :: natChars (v.getD 2 0 + 1) (v.getD 2 0)⟩

/-- The complete version transition of the changed branch: parse the
stored version, pad, bump, re-format; also yields the change kind. -/
def versionStep (major numeric : Bool) (s : String) : String × String :=
  let v := padTo3 (parseVersion s)
  let (v', k) := bumpAndKind major numeric v
  (formatVList v', k)

/-- `"vM.m.p"` for concrete components — the shape of every stored
version. -/
def fmtVer (M m p : Nat) : String := formatVList [M, m, p]

lemma natChars_digits {fuel n : Nat} (h : n < fuel) :
    ∀ c ∈ natChars fuel n, ∃ d, d < 10 ∧ c = Nat.digitChar d := by
  induction fuel generalizing n with
  | zero => omega
  | succ fuel ih =>
    intro c hc
    unfold natChars at hc
    by_cases hn : n < 10
    · simp [hn] at hc
      exact ⟨n, hn, hc⟩
    · simp [hn] at hc
      rcases hc with hc | hc
      · exact ih (by omega) c hc
      · exact ⟨n % 10, Nat.mod_lt _ (by omega), hc⟩

lemma digitChar_ne_dot {d : Nat} (h : d < 10) : Nat.digitChar d ≠ '.' := by
  interval_cases d <;> decide

lemma digitChar_toNat {d : Nat} (h : d < 10) : (Nat.digitChar d).toNat - 48 = d := by
  interval_cases d <;> decide

lemma natChars_no_dot {fuel n : Nat} (h : n < fuel) : '.' ∉ natChars fuel n := by
  intro hm
  obtain ⟨d, hd, hc⟩ := natChars_digits h '.' hm
  exact digitChar_ne_dot hd hc.symm

lemma foldl_natChars {fuel : Nat} : ∀ {n a : Nat}, n < fuel →
    (natChars fuel n).foldl (fun a c => a * 10 + (c.toNat - 48)) a
      = a * 10 ^ (natChars fuel n).length + n := by
  induction fuel with
  | zero => omega
  | succ fuel ih =>
    intro n a h
    unfold natChars
    by_cases hn : n < 10
    · simp [hn, digitChar_toNat hn]
    · have hlt : n / 10 < fuel := by omega
      simp only [hn, if_false, ite_false, List.foldl_append, List.foldl_cons, List.foldl_nil,
        List.length_append, List.length_cons, List.length_nil]
      rw [ih hlt, digitChar_toNat (Nat.mod_lt _ (by omega))]
      have hmod : n / 10 * 10 + n % 10 = n := by omega
      calc (a * 10 ^ (natChars fuel (n / 10)).length + n / 10) * 10 + n % 10
          = a * (10 ^ (natChars fuel (n / 10)).length * 10) + (n / 10 * 10 + n % 10) := by ring
        _ = a * 10 ^ ((natChars fuel (n / 10)).length + 1) + n := by rw [hmod, pow_succ]

lemma toNatParse_natChars {n : Nat} : toNatParse (natChars (n + 1) n) = n := by
  unfold toNatParse
  rw [foldl_natChars (Nat.lt_succ_self n)]
  simp

lemma splitOnDot_cons (c : Char) (rest : List Char) :
    splitOnDot (c :: rest)
      = if c = '.' then [] :: splitOnDot rest
        else (splitOnDot rest).modifyHead (c :: ·) := rfl

lemma splitOnDot_ne_nil (cs : List Char) : splitOnDot cs ≠ [] := by
  cases cs with
  | nil => simp [splitOnDot]
  | cons c rest =>
    rw [splitOnDot_cons]
    by_cases hc : c = '.'
    · simp [hc]
    · simp only [hc, if_false, ite_false]
      cases h : splitOnDot rest with
      | nil => exact absurd h (splitOnDot_ne_nil rest)
      | cons g gs => simp [List.modifyHead]

lemma splitOnDot_no_dot {xs : List Char} (h : '.' ∉ xs) : splitOnDot xs = [xs] := by
  induction xs with
  | nil => rfl
  | cons c rest ih =>
    simp only [List.mem_cons, not_or] at h
    rw [splitOnDot_cons, if_neg (fun hcc => h.1 hcc.symm), ih h.2]
    rfl

lemma splitOnDot_append_dot {xs ys : List Char} (h : '.' ∉ xs) :
    splitOnDot (xs ++ '.' :: ys) = xs :: splitOnDot ys := by
  induction xs with
  | nil => simp [splitOnDot]
  | cons c rest ih =>
    simp only [List.mem_cons, not_or] at h
    rw [List.cons_append, splitOnDot_cons, if_neg (fun hcc => h.1 hcc.symm), ih h.2]
    rfl

/-- Parsing inverts formatting: `parseVersion (fmtVer M m p) = [M, m, p]`. -/
lemma parseVersion_fmtVer (M m p : Nat) : parseVersion (fmtVer M m p) = [M, m, p] := by
  have hM := natChars_no_dot (Nat.lt_succ_self M)
  have hm := natChars_no_dot (Nat.lt_succ_self m)
  have hp := natChars_no_dot (Nat.lt_succ_self p)
  unfold parseVersion fmtVer formatVList
  simp only [List.getD_cons_zero, List.getD_cons_succ]
  show (splitOnDot (List.drop 1 (('v' :: natChars (M + 1) M) ++ ('.' :: natChars (m + 1) m)
    ++ ('.' :: natChars (p + 1) p)))).map toNatParse = [M, m, p]
  rw [List.append_assoc, List.cons_append, List.cons_append, List.drop_succ_cons, List.drop_zero]
  rw [splitOnDot_append_dot hM, List.map_cons, splitOnDot_append_dot hm, splitOnDot_no_dot hp]
  simp [toNatParse_natChars]

/-! ### Registry data model and the upsert step

`Entry` is the Document Entry dictionary created at lines 420–434 of
`check_partl.py`; `HistRecord` the history dictionaries appended at
lines 438–448 and 496–506.  `upsertStep` is the whole
`# upsert registry entry` block (lines 418–516): it receives the values
the per-site pipeline computed for this run (`Fresh`) and returns the
updated registry together with the `(slug, kind)` pair appended to
`changed` (`none` when nothing was appended). -/

structure HistRecord where
  date : String
  source_url : String
  checksum : String
  numbers : List (String × String)
  issued : String
  archived_pdf : String
  diff : Option String
deriving DecidableEq

structure Entry where
  jurisdiction : String
  track : String
  track_title : String
  name : String
  slug : String
  source_url : String
  checksum : String
  numbers : List (String × String)
  issued : String
  first_seen : String
  last_seen : String
  rule_version : String
  history : List HistRecord
deriving DecidableEq

/-- The values computed by the per-site pipeline before the upsert:
canonical PDF URL (`rp.url`), checksum of the PDF bytes, derived name,
track classification, issued date, the run date `today`, and the
numbers snapshot extracted from the text. -/
structure Fresh where
  pdf_url : String
  checksum : String
  name : String
  track_id : String
  track_title : String
  issued : String
  today : String
  numbers : List (String × String)
deriving DecidableEq

/-- The fresh Document Entry of the NEW branch (lines 420–448): note the
single history record, carrying a `None` diff. -/
def newEntry (j sl : String) (f : Fresh) : Entry :=
  { jurisdiction := j
    track := f.track_id
    track_title := f.track_title
    name := f.name
    slug := sl
    source_url := f.pdf_url
    checksum := f.checksum
    numbers := f.numbers
    issued := f.issued
    first_seen := f.today
    last_seen := f.today
    rule_version := "v1.0.0"
    history := [{ date := f.today
                  source_url := f.pdf_url
                  checksum := f.checksum
                  numbers := f.numbers
                  issued := f.issued
                  archived_pdf := "archive/" ++ j ++ "/" ++ sl ++ "/" ++ f.today ++ ".pdf"
                  diff := none }] }

/-- Python mutates the entry object found in the list; here the first
entry with the given slug is replaced. -/
def replaceFirst (sl : String) (e' : Entry) : List Entry → List Entry
  | [] => []
  | x :: xs => if x.slug == sl then e' :: xs else x :: replaceFirst sl e' xs

/-- The changed-branch update of the entry (lines 483–506). -/
def changedEntry (j sl : String) (e : Entry) (f : Fresh) (newVersion : String) : Entry :=
  { e with
    name := f.name
    track := f.track_id
    track_title := f.track_title
    source_url := f.pdf_url
    checksum := f.checksum
    numbers := f.numbers
    issued := f.issued
    last_seen := f.today
    rule_version := newVersion
    history := e.history ++
      [{ date := f.today
         source_url := f.pdf_url
         checksum := f.checksum
         numbers := f.numbers
         issued := f.issued
         archived_pdf := "archive/" ++ j ++ "/" ++ sl ++ "/" ++ f.today ++ ".pdf"
         diff := some ("diffs/" ++ sl ++ "/" ++ f.today ++ ".patch") }] }

/-- The UNCHANGED-branch update of the entry (lines 509–515): `last_seen`
is refreshed, `track`, `track_title` and `name` are overwritten with the
freshly derived values, and `issued` is filled in only when it was
empty. -/
def unchangedEntry (e : Entry) (f : Fresh) : Entry :=
  { e with
    last_seen := f.today
    track := f.track_id
    track_title := f.track_title
    name := f.name
    issued := if f.issued != "" && e.issued == "" then f.issued else e.issued }

/-- Lines 418–516 of `check_partl.py`: look up the entry by slug; if
absent, create it (NEW); otherwise compare URL, checksum and numbers
snapshot, and either record a MAJOR/NUMERIC/MINOR change (bumping the
version and appending a history record) or refresh the entry in place.
The second component is the `(slug, kind)` pair appended to `changed`. -/
def upsertStep (reg : List Entry) (j sl : String) (f : Fresh) :
    List Entry × Option (String × String) :=
  match reg.find? (fun e => e.slug == sl) with
  | none => (reg ++ [newEntry j sl f], some (sl, "NEW"))
  | some e =>
    let major := e.source_url != f.pdf_url
    let minor := e.checksum != f.checksum
    let numeric := e.numbers != f.numbers
    if major || minor || numeric then
      let (vs, kind) := versionStep major numeric e.rule_version
      (replaceFirst sl (changedEntry j sl e f vs) reg, some (sl, kind))
    else
      (replaceFirst sl (unchangedEntry e f) reg, none)

/-- Sequencing of upserts across sites, collecting the `changed` tags in
order (the per-site loop of the script touches the registry only through
`upsertStep`). -/
def runUpserts : List (String × String × Fresh) → List Entry →
    List Entry × List (String × String)
  | [], reg => (reg, [])
  | (j, sl, f) :: rest, reg =>
    let (reg', tag) := upsertStep reg j sl f
    let (regF, tags) := runUpserts rest reg'
    (regF, tag.toList ++ tags)

/-! ### Track classification, slugs and name derivation -/

/-- Python's `\w` (ASCII): letters, digits, underscore. -/
def isWordChar (c : Char) : Bool := c.isAlphanum || c == '_'

/-- `re.search(r"\bf2\b", s)`: an occurrence of `f2` delimited by word
boundaries. -/
def hasWordF2 : Option Char → List Char → Bool
  | _, [] => false
  | prev, 'f' :: '2' :: rest =>
    ((match prev with
      | none => true
      | some c => !isWordChar c) &&
     (match rest with
      | [] => true
      | c :: _ => !isWordChar c))
    || hasWordF2 (some 'f') ('2' :: rest)
  | prev, c :: rest =>
    match prev with
    | _ => hasWordF2 (some c) rest

/-- `classify_track(j, text, href)` from `check_partl.py`. -/
def classify_track (j text href : String) : String × String :=
  let tt := lowerStr text
  let hh := lowerStr href
  if j == "england" || j == "wales" then
    if containsTok tt "volume 1" || containsTok hh "volume-1"
        || containsTok tt "dwellings" || containsTok tt "domestic" then
      ("vol1-dwellings", "Volume 1 — Dwellings")
    else if containsTok tt "volume 2" || containsTok hh "volume-2"
        || containsTok tt "non-domestic" || containsTok tt "buildings other than dwellings" then
      ("vol2-non-domestic", "Volume 2 — Buildings other than dwellings")
    else if containsTok tt "amendment" || containsTok tt "amendments" then
      ("amendments", "Amendments")
    else ("part-l", "Part L")
  else if j == "scotland" then
    if containsTok tt "non-domestic" then ("non-domestic", "Non-domestic Handbook — Section 6")
    else ("domestic", "Domestic Handbook — Section 6")
  else if j == "northern_ireland" then
    if containsTok tt "booklet f2" || hasWordF2 none tt.data || containsTok hh "/f2" then
      ("f2-non-domestic", "Technical Booklet F2 — Non-domestic")
    else ("f1-dwellings", "Technical Booklet F1 — Dwellings")
  else if j == "ireland" then ("dwellings", "TGD L — Dwellings")
  else ("general", "Energy efficiency")

/-- Characters kept by `slug`'s first regex (`[a-z0-9]`). -/
def isSlugOk (c : Char) : Bool := ('a' ≤ c && c ≤ 'z') || ('0' ≤ c && c ≤ '9')

/-- Collapse runs of `-` to a single `-` (the combined effect of
`re.sub(r"[^a-z0-9]+", "-", ·)` mapping each bad run to one dash and of
`re.sub(r"-{2,}", "-", ·)`); the flag records whether the previously
emitted character was a dash. -/
def collapseDash : List Char → Bool → List Char
  | [], _ => []
  | c :: rest, lastDash =>
    if c == '-' then
      if lastDash then collapseDash rest true else '-' :: collapseDash rest true
    else c :: collapseDash rest false

/-- `s.strip("-")`. -/
def stripDash (cs : List Char) : List Char :=
  ((cs.dropWhile (fun c => c == '-')).reverse.dropWhile (fun c => c == '-')).reverse

/-- `slug(s)` from `check_partl.py`: lower-case, replace runs of
non-alphanumerics by one dash, strip dashes at both ends. -/
def slug (s : String) : String :=
  let mapped := (lowerStr s).data.map (fun c => if isSlugOk c then c else '-')
  ⟨stripDash (collapseDash mapped false)⟩

/-- `s.strip()` (whitespace at both ends). -/
def stripWS (cs : List Char) : List Char :=
  ((cs.dropWhile Char.isWhitespace).reverse.dropWhile Char.isWhitespace).reverse

/-- Python's `splitlines` specialised to `\n` separators (the text fed to
it is `pdfminer` output). -/
def splitNL : List Char → List (List Char)
  | [] => [[]]
  | c :: rest => if c = '\n' then [] :: splitNL rest else (splitNL rest).modifyHead (c :: ·)

/-- The keyword list of `derive_name`. -/
def nameKeywords : List String :=
  ["approved document", "technical handbook", "technical booklet", "guidance",
   "section 6", "part l", "dwellings"]

/-- The line scan of `derive_name`: first stripped line of length > 8
containing a keyword. -/
def firstKeywordLine : List (List Char) → String
  | [] => ""
  | L :: rest =>
    let Ls := stripWS L
    if Ls.length > 8 && nameKeywords.any (fun k => containsTok (lowerStr ⟨Ls⟩) k) then ⟨Ls⟩
    else firstKeywordLine rest

/-- ASCII upper-casing of one character. -/
def upperChar (c : Char) : Char :=
  if 97 ≤ c.toNat ∧ c.toNat ≤ 122 then Char.ofNat (c.toNat - 32) else c

/-- Python's `str.title()` for ASCII text. -/
def titleAux : Bool → List Char → List Char
  | _, [] => []
  | prevAlpha, c :: rest =>
    (if c.isAlpha then (if prevAlpha then lowerChar c else upperChar c) else c)
      :: titleAux c.isAlpha rest

/-- `jurisdiction.title()`. -/
def titleCase (s : String) : String := ⟨titleAux false s.data⟩

/-- `derive_name(detail_html, pdf_txt, jurisdiction, track_title)`:
`h1` is the stripped text of the page's first `h1` (empty when there is
none). -/
def derive_name (h1 pdf_txt jurisdiction track_title : String) : String :=
  let base1 := h1
  let base2 := if base1 != "" then base1
    else firstKeywordLine ((splitNL pdf_txt.data).take 40)
  let base := if base2 != "" then base2
    else titleCase jurisdiction ++ " energy efficiency document"
  if track_title != "" && !containsTok (lowerStr base) (lowerStr track_title) then
    base ++ " — " ++ track_title
  else base

/-- `find_pdf_on_page(detail_html, base, j)`: best-scoring anchor among
those that end in `.pdf`, contain `download`, or score at least 2;
returns the joined URL and its anchor text. -/
def find_pdf_on_page (anchors : List (String × String)) (base j : String) :
    Option String × String :=
  let st := anchors.foldl (fun (st : Int × Option String × String) a =>
    let sc := score_for j a.1 a.2
    if endsWithL (lowerStr a.2) ".pdf" || containsTok (lowerStr a.2) "download" || sc ≥ 2 then
      if sc > st.1 then (sc, some (urljoin base a.2), a.1) else st
    else st) (-999, none, "")
  (st.2.1, st.2.2)

/-! ### Fetch with retry, the hop loop, and the per-site pipeline -/

/-- Outcome of one `requests.get` attempt: an exception, or a response
with an HTTP status. -/
inductive FetchOutcome where
  | exc
  | resp (status : Nat)
deriving DecidableEq

/-- `Response.raise_for_status` raises exactly for 4xx and 5xx
statuses. -/
def statusRaises (s : Nat) : Bool := 400 ≤ s && s < 600

/-- `time.sleep(1.5 * (i + 1))`: the backoff slept after failed attempt
`i` (0-based), in seconds. -/
def backoff (i : Nat) : ℚ := (1.5 : ℚ) * ((i : ℚ) + 1)

/-- The retry loop of `fetch` (lines 72–87): `i` is the current attempt
index, the second argument the remaining attempt budget.  Returns the
status of the first accepted response (`none` after exhaustion) together
with the list of `time.sleep` durations, `1.5 * (i + 1)` seconds after
each failed attempt. -/
def fetchGo (attempts : Nat → FetchOutcome) : Nat → Nat → Option Nat × List ℚ
  | _, 0 => (none, [])
  | i, n + 1 =>
    match attempts i with
    | .exc =>
      let r := fetchGo attempts (i + 1) n
      (r.1, backoff i :: r.2)
    | .resp s =>
      if statusRaises s then
        let r := fetchGo attempts (i + 1) n
        (r.1, backoff i :: r.2)
      else (some s, [])

/-- `fetch(url, retries=3)` as a function of the per-attempt outcomes
(the `urljoin` of a relative URL against `base` is not modelled: every
call site passes an absolute URL). -/
def fetchModel (attempts : Nat → FetchOutcome) (retries : Nat) : Option Nat × List ℚ :=
  fetchGo attempts 0 retries

/-- A fetched and parsed detail page: its anchors, the value
`extract_issued` computes from it, and the stripped text of its first
`h1` (the date/regex extraction inside `extract_issued` is not itself
modelled; no claim depends on it). -/
structure DetailPage where
  anchors : List (String × String)
  issued : String
  h1 : String

/-- A fetched PDF response after redirects: `rp.url`, the
`"sha256:..."` checksum of its bytes, its extracted text and the
`Last-Modified` header (empty when absent). -/
structure PdfResp where
  finalUrl : String
  checksum : String
  text : String
  lastModified : String

/-- The network behaviour one site's processing observes: the collection
page (`none` = `fetch` exhausted its retries), and the outcomes of
detail-page and PDF fetches by URL. -/
structure SiteEnv where
  collPage : Option (List (String × String))
  pageFetch : String → Option DetailPage
  pdfFetch : String → Option PdfResp

/-- The candidate loop of lines 361–382, returning the working variables
at the `break` that found a PDF: `(pdf_url, link_text_for_name,
picked_track_id, picked_track_title, issued, detail_h1)`.  The two
accumulator arguments carry `detail_html`'s `h1` and `issued`, which
persist across iterations exactly as the Python variables do. -/
def hopLoop (env : SiteEnv) (j : String) :
    List (String × String) → String → String →
    Option (String × String × String × String × String × String)
  | [], _, _ => none
  | (u, ltext) :: rest, h1, issued =>
    if endsWithL (lowerStr u) ".pdf" then
      let tc := classify_track j ltext u
      some (u, ltext, tc.1, tc.2, issued, h1)
    else
      match env.pageFetch u with
      | none => hopLoop env j rest h1 issued
      | some page =>
        let tc := classify_track j ltext u
        match find_pdf_on_page page.anchors u j with
        | (some cand_pdf, cand_text) =>
          some (cand_pdf, if cand_text != "" then cand_text else ltext, tc.1, tc.2,
                if page.issued != "" then page.issued else issued, page.h1)
        | (none, _) => hopLoop env j rest page.h1 issued

/-- The URLs passed to `fetch` by the hop loop, in order (the `rr =
fetch(u)` calls of line 371): a direct-`.pdf` candidate breaks the loop
without a hop fetch; a failed fetch or a page without a PDF moves to the
next candidate; a found PDF stops the loop. -/
def hopFetchedURLs (j : String) (pf : String → Option DetailPage) :
    List (String × String) → List String
  | [] => []
  | (u, _) :: rest =>
    if endsWithL (lowerStr u) ".pdf" then []
    else u ::
      match pf u with
      | none => hopFetchedURLs j pf rest
      | some page =>
        match find_pdf_on_page page.anchors u j with
        | (some _, _) => []
        | (none, _) => hopFetchedURLs j pf rest

/-- One site of the main loop (lines 340–516): fetch the collection page
(skip the site on failure), build candidates, run the hop loop (skip
when no PDF is found), fetch the PDF (skip on failure), derive the
metadata and upsert.  `numbersOf` stands for `extract_numbers` (a regex
scrape of the text; its internals are not modelled). -/
def processSite (numbersOf : String → List (String × String)) (today : String)
    (env : SiteEnv) (j coll : String) (reg : List Entry) :
    List Entry × Option (String × String) :=
  match env.collPage with
  | none => (reg, none)
  | some page =>
    let cands := detail_candidates j page coll
    match hopLoop env j cands "" "" with
    | none => (reg, none)
    | some (pdfUrl0, ltext, tid, tt, issued0, h1) =>
      match env.pdfFetch pdfUrl0 with
      | none => (reg, none)
      | some rp =>
        let pdf_url := rp.finalUrl
        let issued1 := if issued0 != "" then issued0 else rp.lastModified
        let tc := if tid != "" then (tid, tt) else classify_track j ltext pdf_url
        let name := derive_name h1 rp.text j tc.2
        let sl := slug (j ++ "-" ++ tc.1)
        upsertStep reg j sl
          { pdf_url := pdf_url, checksum := rp.checksum, name := name,
            track_id := tc.1, track_title := tc.2,
            issued := issued1, today := today, numbers := numbersOf rp.text }

/-- The outer `for site in SITES` loop: sites processed in order, each
through `processSite`; `changed` tags are collected in order. -/
def runSites (numbersOf : String → List (String × String)) (today : String) :
    List (String × String × SiteEnv) → List Entry → List Entry × List (String × String)
  | [], reg => (reg, [])
  | (j, coll, env) :: rest, reg =>
    let r := processSite numbersOf today env j coll reg
    let rr := runSites numbersOf today rest r.1
    (rr.1, r.2.toList ++ rr.2)

/-! ### Registry readers -/

/-- A persisted registry document in one of the two shapes the spec
names: a top-level JSON list of entries, or an object
`{"items": [...]}`. -/
inductive RegJson where
  | arr (items : List Entry)
  | itemsObj (items : List Entry)
deriving DecidableEq

/-- `load_registry` of `check_partl.py`: `json.load` of
`registry/current.json`, with every exception (missing file, unreadable
file, invalid JSON) mapped to `[]`.  The parsed value is returned as-is:
the items-object shape is NOT unwrapped. -/
def load_registry_cp (raw : Option RegJson) : RegJson :=
  match raw with
  | none => .arr []
  | some v => v

/-- What the main loop's entry lookup sees for each shape: for a
top-level list, the entries; for an items-object, Python iterates the
dict's keys (strings) and `x.get("slug")` raises `AttributeError`,
modelled as `none`. -/
def registryEntriesForRun (r : RegJson) : Option (List Entry) :=
  match r with
  | .arr l => some l
  | .itemsObj _ => none

/-- `load_registry` of `render_site.py` followed by its items
extraction: accepts both shapes (and maps read/parse failures to no
items). -/
def render_items (raw : Option RegJson) : List Entry :=
  match raw with
  | none => []
  | some (.itemsObj l) => l
  | some (.arr l) => l

/-- `make_thumbs.py`'s `items = data.get("items") or data` followed by
the `for row in items: ... row.get(...)` loop: a top-level list raises
`AttributeError` at `data.get`; an items-object with an empty list falls
back to the dict itself, whose string keys raise `AttributeError` inside
`pick_pdf`; only a non-empty items-object yields the entries. -/
def make_thumbs_items (data : RegJson) : Except String (List Entry) :=
  match data with
  | .arr _ => .error "AttributeError: list object has no attribute get"
  | .itemsObj l =>
    if l.isEmpty then .error "AttributeError: str object has no attribute get"
    else .ok l

/-! ### Ordering properties of the candidate ranking -/

/-- `a` strictly precedes `b` in the sort order iff it has a higher
score, or the same score and an earlier document position. -/
lemma candBefore_iff (a b : Cand) :
    candBefore a b = true ↔ (b.sc < a.sc ∨ (a.sc = b.sc ∧ a.idx < b.idx)) := by
  simp [candBefore]

lemma candBefore_false_iff (a b : Cand) :
    candBefore a b = false ↔ (a.sc < b.sc ∨ (a.sc = b.sc ∧ b.idx ≤ a.idx)) := by
  rw [← Bool.not_eq_true, candBefore_iff]
  push_neg
  constructor <;> intro h <;> omega

/-- `SortedC l`: each element of `l` is not strictly preceded by any
later element — the defining property of the sorted candidate list. -/
def SortedC (l : List Cand) : Prop := l.Pairwise (fun a b => candBefore b a = false)

lemma insertCand_perm (x : Cand) (l : List Cand) : (insertCand x l).Perm (x :: l) := by
  induction l with
  | nil => exact List.Perm.refl _
  | cons y ys ih =>
    unfold insertCand
    by_cases h : candBefore x y
    · simp [h]
    · simp only [h, Bool.false_eq_true, if_false, ite_false]
      exact (ih.cons y).trans (List.Perm.swap x y ys)

lemma sortCands_perm (l : List Cand) : (sortCands l).Perm l := by
  induction l with
  | nil => exact List.Perm.refl _
  | cons x xs ih => exact (insertCand_perm x (sortCands xs)).trans (ih.cons x)

lemma insertCand_sorted (x : Cand) (l : List Cand) (h : SortedC l) :
    SortedC (insertCand x l) := by
  induction l with
  | nil => simp [insertCand, SortedC]
  | cons y ys ih =>
    rcases List.pairwise_cons.mp h with ⟨hy, hys⟩
    unfold insertCand
    by_cases hxy : candBefore x y
    · simp only [hxy, if_pos, ite_true]
      refine List.pairwise_cons.mpr ⟨?_, h⟩
      intro z hz
      rcases List.mem_cons.mp hz with hz | hz
      · subst hz
        rw [candBefore_false_iff]
        rw [candBefore_iff] at hxy
        omega
      · have hzy := hy z hz
        rw [candBefore_false_iff] at hzy ⊢
        rw [candBefore_iff] at hxy
        omega
    · simp only [hxy, Bool.false_eq_true, if_false, ite_false]
      refine List.pairwise_cons.mpr ⟨?_, ih hys⟩
      intro z hz
      have hz0 := (insertCand_perm x ys).mem_iff.mp hz
      rcases List.mem_cons.mp hz0 with hz' | hz'
      · subst hz'
        exact Bool.eq_false_iff.mpr hxy
      · exact hy z hz'

lemma sortCands_sorted (l : List Cand) : SortedC (sortCands l) := by
  induction l with
  | nil => simp [sortCands, SortedC]
  | cons x xs ih => exact insertCand_sorted x (sortCands xs) ih

lemma dedupCands_sublist (seen : List String) (l : List Cand) :
    List.Sublist (dedupCands seen l) l := by
  induction l generalizing seen with
  | nil => simp [dedupCands]
  | cons c cs ih =>
    unfold dedupCands
    by_cases h : seen.contains c.url
    · simp only [h, if_pos, ite_true]
      exact (ih seen).cons c
    · simp only [h, Bool.false_eq_true, if_false, ite_false]
      exact (ih (c.url :: seen)).cons₂ c

lemma mem_dedupCands_not_seen {seen : List String} {l : List Cand} {c : Cand}
    (h : c ∈ dedupCands seen l) : seen.contains c.url = false := by
  induction l generalizing seen with
  | nil => simp [dedupCands] at h
  | cons x xs ih =>
    unfold dedupCands at h
    by_cases hx : seen.contains x.url
    · simp only [hx, if_pos, ite_true] at h
      exact ih h
    · simp only [hx, Bool.false_eq_true, if_false, ite_false] at h
      rcases List.mem_cons.mp h with h | h
      · subst h
        exact Bool.eq_false_iff.mpr hx
      · have := ih h
        simp only [List.contains_cons, Bool.or_eq_false_iff] at this
        exact this.2

lemma dedupCands_nodup_urls (seen : List String) (l : List Cand) :
    ((dedupCands seen l).map Cand.url).Nodup := by
  induction l generalizing seen with
  | nil => simp [dedupCands]
  | cons c cs ih =>
    unfold dedupCands
    by_cases h : seen.contains c.url
    · simp only [h, if_pos, ite_true]
      exact ih seen
    · simp only [h, Bool.false_eq_true, if_false, ite_false, List.map_cons]
      refine List.nodup_cons.mpr ⟨?_, ih (c.url :: seen)⟩
      intro hmem
      rcases List.mem_map.mp hmem with ⟨d, hd, hdu⟩
      have := mem_dedupCands_not_seen hd
      simp only [List.contains_cons, Bool.or_eq_false_iff] at this
      rcases this with ⟨h1, _⟩
      rw [hdu] at h1
      simp at h1

lemma dedupCands_max {l : List Cand} (hs : SortedC l) :
    ∀ seen, ∀ c ∈ dedupCands seen l, ∀ d ∈ l, d.url = c.url → d.sc ≤ c.sc := by
  induction l with
  | nil => intro seen c hc; simp [dedupCands] at hc
  | cons x xs ih =>
    rcases List.pairwise_cons.mp hs with ⟨hx, hxs⟩
    intro seen c hc d hd hdu
    unfold dedupCands at hc
    by_cases hseen : seen.contains x.url
    · simp only [hseen, if_pos, ite_true] at hc
      rcases List.mem_cons.mp hd with hd | hd
      · subst hd
        have := mem_dedupCands_not_seen hc
        rw [← hdu] at this
        rw [hseen] at this
        cases this
      · exact ih hxs seen c hc d hd hdu
    · simp only [hseen, Bool.false_eq_true, if_false, ite_false] at hc
      rcases List.mem_cons.mp hc with hc | hc
      · subst hc
        rcases List.mem_cons.mp hd with hd | hd
        · subst hd
          exact le_refl _
        · have := hx d hd
          rw [candBefore_false_iff] at this
          omega
      · rcases List.mem_cons.mp hd with hd | hd
        · subst hd
          have := mem_dedupCands_not_seen hc
          simp only [List.contains_cons, Bool.or_eq_false_iff] at this
          rw [← hdu] at this
          simp at this
        · exact ih hxs (x.url :: seen) c hc d hd hdu

lemma candListFrom_idx_ge (j base : String) :
    ∀ (anchors : List (String × String)) (i : Nat), ∀ c ∈ candListFrom j base i anchors,
      i ≤ c.idx := by
  intro anchors
  induction anchors with
  | nil => intro i c hc; simp [candListFrom] at hc
  | cons a rest ih =>
    intro i c hc
    unfold candListFrom at hc
    by_cases hsc : score_for j a.1 a.2 > 0
    · simp only [hsc, if_pos, ite_true] at hc
      rcases List.mem_cons.mp hc with hc | hc
      · subst hc
        exact Nat.le_refl _
      · exact le_trans (Nat.le_succ i) (ih (i + 1) c hc)
    · simp only [hsc, if_false, ite_false] at hc
      exact le_trans (Nat.le_succ i) (ih (i + 1) c hc)

lemma candListFrom_pairwise_idx (j base : String) :
    ∀ (anchors : List (String × String)) (i : Nat),
      (candListFrom j base i anchors).Pairwise (fun a b => a.idx < b.idx) := by
  intro anchors
  induction anchors with
  | nil => intro i; simp [candListFrom]
  | cons a rest ih =>
    intro i
    unfold candListFrom
    by_cases hsc : score_for j a.1 a.2 > 0
    · simp only [hsc, if_pos, ite_true]
      refine List.pairwise_cons.mpr ⟨?_, ih (i + 1)⟩
      intro c hc
      have := candListFrom_idx_ge j base rest (i + 1) c hc
      change i < c.idx
      omega
    · simp only [hsc, if_false, ite_false]
      exact ih (i + 1)

lemma candList_nodup_idx (j : String) (anchors : List (String × String)) (base : String) :
    ((candList j anchors base).map Cand.idx).Nodup := by
  have h := candListFrom_pairwise_idx j base anchors 0
  rw [List.Nodup, List.pairwise_map]
  exact h.imp (fun hab => Nat.ne_of_lt hab)

/-! ### Helper lemmas for the upsert, fetch and run-level theorems -/

lemma candListFrom_pos (j base : String) :
    ∀ (anchors : List (String × String)) (i : Nat), ∀ c ∈ candListFrom j base i anchors,
      0 < c.sc := by
  intro anchors
  induction anchors with
  | nil => intro i c hc; simp [candListFrom] at hc
  | cons a rest ih =>
    intro i c hc
    unfold candListFrom at hc
    by_cases hsc : score_for j a.1 a.2 > 0
    · simp only [hsc, if_pos, ite_true] at hc
      rcases List.mem_cons.mp hc with hc | hc
      · subst hc
        exact hsc
      · exact ih (i + 1) c hc
    · simp only [hsc, if_false, ite_false] at hc
      exact ih (i + 1) c hc

lemma find?_slug_none {reg : List Entry} {sl : String} (h : ∀ e ∈ reg, e.slug ≠ sl) :
    reg.find? (fun e => e.slug == sl) = none := by
  rw [List.find?_eq_none]
  intro x hx
  simpa using h x hx

lemma upsertStep_new {reg : List Entry} {j sl : String} {f : Fresh}
    (h : ∀ e ∈ reg, e.slug ≠ sl) :
    upsertStep reg j sl f = (reg ++ [newEntry j sl f], some (sl, "NEW")) := by
  unfold upsertStep
  rw [find?_slug_none h]

lemma versionStep_kind (major numeric : Bool) (s : String) :
    (versionStep major numeric s).2
      = if major then "MAJOR" else if numeric then "NUMERIC" else "MINOR" := by
  unfold versionStep bumpAndKind
  cases major <;> cases numeric <;> simp

lemma padTo3_3 (a b c : Nat) : padTo3 [a, b, c] = [a, b, c] := by
  simp [padTo3]

/-- The failure test of one attempt: an exception, or a status that
`raise_for_status` rejects. -/
def isFail (o : FetchOutcome) : Bool :=
  match o with
  | .exc => true
  | .resp s => statusRaises s

lemma range_map_backoff (i n : Nat) :
    (List.range (n + 1)).map (fun k => backoff (i + k))
      = backoff i :: (List.range n).map (fun k => backoff (i + 1 + k)) := by
  rw [List.range_succ_eq_map, List.map_cons, List.map_map]
  congr 1
  · refine List.map_congr_left ?_
    intro a _
    simp only [Function.comp]
    congr 1
    omega

lemma fetchGo_all_fail (attempts : Nat → FetchOutcome) :
    ∀ (n i : Nat), (∀ k, k < n → isFail (attempts (i + k)) = true) →
      fetchGo attempts i n = (none, (List.range n).map (fun k => backoff (i + k))) := by
  intro n
  induction n with
  | zero => intro i _; rfl
  | succ n ih =>
    intro i h
    have h0 : isFail (attempts i) = true := by
      have := h 0 (Nat.succ_pos n)
      simpa using this
    have hrec : fetchGo attempts (i + 1) n
        = (none, (List.range n).map (fun k => backoff (i + 1 + k))) := by
      refine ih (i + 1) ?_
      intro k hk
      have := h (k + 1) (by omega)
      rwa [show i + (k + 1) = i + 1 + k by omega] at this
    rw [range_map_backoff]
    cases ho : attempts i with
    | exc => simp [fetchGo, ho, hrec]
    | resp s =>
      have hs : statusRaises s = true := by
        rw [ho] at h0
        exact h0
      simp [fetchGo, ho, hs, hrec]

lemma fetchGo_success (attempts : Nat → FetchOutcome) :
    ∀ (jf n i s : Nat), jf < n → attempts (i + jf) = .resp s → statusRaises s = false →
      (∀ k, k < jf → isFail (attempts (i + k)) = true) →
      fetchGo attempts i n = (some s, (List.range jf).map (fun k => backoff (i + k))) := by
  intro jf
  induction jf with
  | zero =>
    intro n i s hn ha hs _
    cases n with
    | zero => omega
    | succ n =>
      rw [show i + 0 = i from rfl] at ha
      simp [fetchGo, ha, hs]
  | succ jf ih =>
    intro n i s hn ha hs h
    cases n with
    | zero => omega
    | succ n =>
      have h0 : isFail (attempts i) = true := by
        have := h 0 (Nat.succ_pos jf)
        simpa using this
      have hrec : fetchGo attempts (i + 1) n
          = (some s, (List.range jf).map (fun k => backoff (i + 1 + k))) := by
        refine ih n (i + 1) s (by omega) ?_ hs ?_
        · rwa [show i + 1 + jf = i + (jf + 1) by omega]
        · intro k hk
          have := h (k + 1) (by omega)
          rwa [show i + (k + 1) = i + 1 + k by omega] at this
      rw [range_map_backoff]
      cases ho : attempts i with
      | exc => simp [fetchGo, ho, hrec]
      | resp s' =>
        have hs' : statusRaises s' = true := by
          rw [ho] at h0
          exact h0
        simp [fetchGo, ho, hs', hrec]

lemma runUpserts_all_new :
    ∀ (steps : List (String × String × Fresh)) (reg : List Entry),
      (∀ s ∈ steps.map (fun x => x.2.1), ∀ e ∈ reg, e.slug ≠ s) →
      (steps.map (fun x => x.2.1)).Nodup →
      (runUpserts steps reg).2 = steps.map (fun x => (x.2.1, "NEW")) := by
  intro steps
  induction steps with
  | nil => intro reg _ _; rfl
  | cons st rest ih =>
    rcases st with ⟨j, sl, f⟩
    intro reg h hn
    have hn' : (sl :: rest.map (fun x => x.2.1)).Nodup := by simpa using hn
    rcases List.nodup_cons.mp hn' with ⟨hsl, hrest⟩
    have hnew : upsertStep reg j sl f = (reg ++ [newEntry j sl f], some (sl, "NEW")) :=
      upsertStep_new (h sl (by simp))
    have hih : (runUpserts rest (reg ++ [newEntry j sl f])).2
        = rest.map (fun x => (x.2.1, "NEW")) := by
      refine ih (reg ++ [newEntry j sl f]) ?_ hrest
      intro s hs e he
      rcases List.mem_append.mp he with he | he
      · exact h s (by simp [hs]) e he
      · rcases List.mem_singleton.mp he with rfl
        show sl ≠ s
        intro heq
        exact hsl (heq ▸ hs)
    unfold runUpserts
    rw [hnew]
    simp [hih]

/-! ### Concrete fixtures used by witnesses and counterexamples -/

/-- A stored history record for the demonstration entry. -/
def demoHist : HistRecord :=
  { date := "2024-01-01", source_url := "https://x/d.pdf", checksum := "sha256:aa",
    numbers := [("wall", "0.18")], issued := "2020-01-01",
    archived_pdf := "archive/england/england-part-l/2024-01-01.pdf", diff := none }

/-- A stored Document Entry as of a previous run. -/
def demoEntry : Entry :=
  { jurisdiction := "england", track := "part-l", track_title := "Part L",
    name := "Old Name", slug := "england-part-l", source_url := "https://x/d.pdf",
    checksum := "sha256:aa", numbers := [("wall", "0.18")], issued := "2020-01-01",
    first_seen := "2024-01-01", last_seen := "2024-01-01", rule_version := "v1.2.3",
    history := [demoHist] }

/-- A re-resolution of the same document: identical URL, checksum and
numbers snapshot, but freshly derived name/track metadata that differs
from the stored entry (the detail page changed cosmetically). -/
def demoFreshSame : Fresh :=
  { pdf_url := "https://x/d.pdf", checksum := "sha256:aa", name := "New Name",
    track_id := "amendments", track_title := "Amendments", issued := "2021-05-05",
    today := "2025-10-12", numbers := [("wall", "0.18")] }

/-- A re-resolution where both the canonical URL and the checksum
changed. -/
def demoFreshMajor : Fresh :=
  { pdf_url := "https://x/new.pdf", checksum := "sha256:bb", name := "New Name",
    track_id := "part-l", track_title := "Part L", issued := "",
    today := "2025-10-12", numbers := [("wall", "0.18")] }

/-! ### Claim theorems -/

/-- C1 (counterexample): the claim says a match of any exclude token
rejects the anchor regardless of include matches and of the PDF bonus.
On the Ireland rule, the anchor with text `"Dwellings guidance"`
(matching the include token `"dwellings"`) and href
`https://www.gov.ie/tgd-non-domestic.pdf` (matching the exclude token
`"non-domestic"`) scores 2 + (−3) + 3 = 2 > 0 and IS accepted into the
candidate list, refuting the claim. -/
theorem C1_counterexample :
    containsTok (lowerStr "Dwellings guidance") "dwellings" = true
    ∧ "dwellings" ∈ INCLUDE "ireland"
    ∧ containsTok (lowerStr "https://www.gov.ie/tgd-non-domestic.pdf") "non-domestic" = true
    ∧ "non-domestic" ∈ EXCLUDE "ireland"
    ∧ score_for "ireland" "Dwellings guidance" "https://www.gov.ie/tgd-non-domestic.pdf" = 2
    ∧ detail_candidates "ireland"
        [("Dwellings guidance", "https://www.gov.ie/tgd-non-domestic.pdf")]
        "https://www.gov.ie/en/publication/x"
      = [("https://www.gov.ie/tgd-non-domestic.pdf", "Dwellings guidance")] := by
  decide

/-- C1 (amended): an exclude-token match subtracts 3 from the additive
score (+2 per include token matched, +3 PDF bonus) rather than rejecting
absolutely, and an anchor enters the candidate list only with a strictly
positive total; hence one include match plus one exclude match is
rejected without the PDF bonus (score −1) but accepted with it
(score 2). -/
theorem C1_amended_exclude_discount :
    (∀ j text href, score_for j text href
        = 2 * (countIncl j (lowerStr text) (lowerStr href) : Int)
          - 3 * (countExcl j (lowerStr text) (lowerStr href) : Int)
          + (if pdfBonus (lowerStr href) then 3 else 0))
    ∧ (∀ j base anchors, ∀ c ∈ candList j anchors base, 0 < c.sc)
    ∧ score_for "ireland" "Dwellings" "tgd-non-domestic.html" = -1
    ∧ detail_candidates "ireland" [("Dwellings", "tgd-non-domestic.html")]
        "https://www.gov.ie/x" = []
    ∧ score_for "ireland" "Dwellings" "tgd-non-domestic.pdf" = 2
    ∧ (detail_candidates "ireland" [("Dwellings", "tgd-non-domestic.pdf")]
        "https://www.gov.ie/x").length = 1 := by
  refine ⟨score_for_closed, ?_, by decide, by decide, by decide, by decide⟩
  intro j base anchors c hc
  exact candListFrom_pos j base anchors 0 c hc

/-- C1 (witness for the amended theorem): the accepted candidate of the
PDF-bonus case has a positive score. -/
theorem C1_witness :
    0 < (Cand.mk 2 0 (urljoin "https://www.gov.ie/x" "tgd-non-domestic.pdf") "Dwellings").sc :=
  C1_amended_exclude_discount.2.1 "ireland" "https://www.gov.ie/x"
    [("Dwellings", "tgd-non-domestic.pdf")] _ (by decide)

/-- C2 (confirmed): with a stored entry present, the `changed` tag is
decided by strict first-true-wins priority — URL change ⇒ MAJOR, else
numbers change ⇒ NUMERIC, else checksum change ⇒ MINOR, else no tag
(UNCHANGED); in particular a simultaneous URL+fingerprint change is
MAJOR. -/
theorem C2_classification_priority (e : Entry) (f : Fresh) (j sl : String)
    (hsl : e.slug = sl) :
    ((upsertStep [e] j sl f).2
      = (if e.source_url ≠ f.pdf_url then some (sl, "MAJOR")
         else if e.numbers ≠ f.numbers then some (sl, "NUMERIC")
         else if e.checksum ≠ f.checksum then some (sl, "MINOR")
         else none))
    ∧ (e.source_url ≠ f.pdf_url → e.checksum ≠ f.checksum →
        (upsertStep [e] j sl f).2 = some (sl, "MAJOR")) := by
  have hfind : [e].find? (fun x => x.slug == sl) = some e := by
    simp [List.find?, hsl]
  have hmain : (upsertStep [e] j sl f).2
      = (if e.source_url ≠ f.pdf_url then some (sl, "MAJOR")
         else if e.numbers ≠ f.numbers then some (sl, "NUMERIC")
         else if e.checksum ≠ f.checksum then some (sl, "MINOR")
         else none) := by
    by_cases hu : e.source_url = f.pdf_url <;>
      by_cases hn : e.numbers = f.numbers <;>
        by_cases hc : e.checksum = f.checksum <;>
          simp [upsertStep, hfind, hu, hn, hc, versionStep, bumpAndKind]
  refine ⟨hmain, ?_⟩
  intro hu _
  rw [hmain, if_pos hu]

/-- C2 (witness): a concrete fetch where both the URL and the checksum
changed is classified MAJOR. -/
theorem C2_witness :
    (upsertStep [demoEntry] "england" "england-part-l" demoFreshMajor).2
      = some ("england-part-l", "MAJOR") :=
  (C2_classification_priority demoEntry demoFreshMajor "england" "england-part-l" rfl).2
    (by decide) (by decide)

/-- C3 (confirmed): the version bump is a pure function of the
classification on `vMAJOR.MINOR.PATCH` strings — MAJOR resets minor and
patch, NUMERIC bumps minor and resets patch, MINOR bumps patch — and
three consecutive NUMERIC steps from `v1.0.0` give `v1.1.0`, `v1.2.0`,
`v1.3.0`. -/
theorem C3_version_bump :
    (∀ (M m p : Nat) (b : Bool),
      versionStep true b (fmtVer M m p) = (fmtVer (M + 1) 0 0, "MAJOR"))
    ∧ (∀ M m p : Nat,
      versionStep false true (fmtVer M m p) = (fmtVer M (m + 1) 0, "NUMERIC"))
    ∧ (∀ M m p : Nat,
      versionStep false false (fmtVer M m p) = (fmtVer M m (p + 1), "MINOR"))
    ∧ versionStep false true "v1.0.0" = ("v1.1.0", "NUMERIC")
    ∧ versionStep false true "v1.1.0" = ("v1.2.0", "NUMERIC")
    ∧ versionStep false true "v1.2.0" = ("v1.3.0", "NUMERIC") := by
  refine ⟨?_, ?_, ?_, by decide, by decide, by decide⟩
  · intro M m p b
    unfold versionStep
    rw [parseVersion_fmtVer, padTo3_3]
    simp [bumpAndKind, fmtVer]
  · intro M m p
    unfold versionStep
    rw [parseVersion_fmtVer, padTo3_3]
    simp [bumpAndKind, fmtVer]
  · intro M m p
    unfold versionStep
    rw [parseVersion_fmtVer, padTo3_3]
    simp [bumpAndKind, fmtVer]

/-- C4 (counterexample): the claim says an UNCHANGED run modifies only
`last_seen` (and optionally a previously empty `issued`).  With
identical URL, checksum and numbers but freshly derived metadata, the
code also overwrites `name`, `track` and `track_title`: the updated
entry's name is the fresh `"New Name"`, not the stored `"Old Name"`. -/
theorem C4_counterexample :
    (upsertStep [demoEntry] "england" "england-part-l" demoFreshSame).2 = none
    ∧ (upsertStep [demoEntry] "england" "england-part-l" demoFreshSame).1.map Entry.name
        = ["New Name"]
    ∧ (upsertStep [demoEntry] "england" "england-part-l" demoFreshSame).1.map Entry.track
        = ["amendments"]
    ∧ (upsertStep [demoEntry] "england" "england-part-l" demoFreshSame).1.map Entry.track_title
        = ["Amendments"]
    ∧ demoEntry.name = "Old Name"
    ∧ demoEntry.track = "part-l"
    ∧ demoEntry.track_title = "Part L" := by
  decide

/-- C4 (amended): on an UNCHANGED classification the update appends no
history record and no `changed` tag, leaves `history`, `rule_version`,
`first_seen`, `source_url`, `checksum`, `numbers`, `slug` and
`jurisdiction` untouched, sets `last_seen` to today, overwrites `name`,
`track` and `track_title` with the freshly derived values, and fills
`issued` only when it was previously empty. -/
theorem C4_amended_unchanged_frame (e : Entry) (f : Fresh) (j sl : String)
    (h1 : e.slug = sl) (h2 : e.source_url = f.pdf_url) (h3 : e.checksum = f.checksum)
    (h4 : e.numbers = f.numbers) :
    upsertStep [e] j sl f = ([unchangedEntry e f], none)
    ∧ (unchangedEntry e f).history = e.history
    ∧ (unchangedEntry e f).rule_version = e.rule_version
    ∧ (unchangedEntry e f).first_seen = e.first_seen
    ∧ (unchangedEntry e f).source_url = e.source_url
    ∧ (unchangedEntry e f).checksum = e.checksum
    ∧ (unchangedEntry e f).numbers = e.numbers
    ∧ (unchangedEntry e f).slug = e.slug
    ∧ (unchangedEntry e f).jurisdiction = e.jurisdiction
    ∧ (unchangedEntry e f).last_seen = f.today
    ∧ (unchangedEntry e f).name = f.name
    ∧ (unchangedEntry e f).track = f.track_id
    ∧ (unchangedEntry e f).track_title = f.track_title
    ∧ (unchangedEntry e f).issued
        = (if f.issued != "" && e.issued == "" then f.issued else e.issued) := by
  have hfind : [e].find? (fun x => x.slug == sl) = some e := by
    simp [List.find?, h1]
  refine ⟨?_, rfl, rfl, rfl, rfl, rfl, rfl, rfl, rfl, rfl, rfl, rfl, rfl, rfl⟩
  simp [upsertStep, hfind, h2, h3, h4, replaceFirst, h1]

/-- C4 (witness): the amended frame condition at the concrete
fixtures. -/
theorem C4_witness :
    upsertStep [demoEntry] "england" "england-part-l" demoFreshSame
      = ([unchangedEntry demoEntry demoFreshSame], none)
    ∧ (unchangedEntry demoEntry demoFreshSame).history = demoEntry.history := by
  have h := C4_amended_unchanged_frame demoEntry demoFreshSame "england" "england-part-l"
    rfl rfl rfl rfl
  exact ⟨h.1, h.2.1⟩

/-- C5 (confirmed): a slug not yet in the registry yields a NEW
classification; the created entry has `rule_version` `v1.0.0`,
`first_seen` set to the run date, and a history of length exactly one
whose single record carries a null diff. -/
theorem C5_new_entry (reg : List Entry) (j sl : String) (f : Fresh)
    (habs : ∀ e ∈ reg, e.slug ≠ sl) :
    upsertStep reg j sl f = (reg ++ [newEntry j sl f], some (sl, "NEW"))
    ∧ (newEntry j sl f).rule_version = "v1.0.0"
    ∧ (newEntry j sl f).first_seen = f.today
    ∧ (newEntry j sl f).history.length = 1
    ∧ ∀ r ∈ (newEntry j sl f).history, r.diff = none := by
  refine ⟨upsertStep_new habs, rfl, rfl, rfl, ?_⟩
  intro r hr
  have : r = { date := f.today, source_url := f.pdf_url, checksum := f.checksum,
               numbers := f.numbers, issued := f.issued,
               archived_pdf := "archive/" ++ j ++ "/" ++ sl ++ "/" ++ f.today ++ ".pdf",
               diff := none } := by
    simpa [newEntry] using hr
  rw [this]

/-- C5 (witness): first resolution of a fresh slug on an empty
registry. -/
theorem C5_witness :
    upsertStep [] "england" "england-part-l" demoFreshSame
      = ([newEntry "england" "england-part-l" demoFreshSame], some ("england-part-l", "NEW"))
    ∧ (newEntry "england" "england-part-l" demoFreshSame).history.length = 1 := by
  have h := C5_new_entry [] "england" "england-part-l" demoFreshSame
    (by intro e he; simp at he)
  exact ⟨by simpa using h.1, h.2.2.2.1⟩

/-- C6 (counterexample): the claim says hop fetches never leave the
seed's domain.  An anchor on the gov.uk collection page whose absolute
href points at `malicious.example` scores 2 (include token `"part l"` in
its text), survives as a candidate, is not a direct PDF, and so is
fetched by the hop loop — a different host than the seed's. -/
theorem C6_counterexample :
    detail_candidates "england" [("Part L guidance", "https://malicious.example/part-l")]
        "https://www.gov.uk/government/collections/approved-documents"
      = [("https://malicious.example/part-l", "Part L guidance")]
    ∧ hopFetchedURLs "england" (fun _ => none)
        (detail_candidates "england" [("Part L guidance", "https://malicious.example/part-l")]
          "https://www.gov.uk/government/collections/approved-documents")
      = ["https://malicious.example/part-l"]
    ∧ hostOf "https://malicious.example/part-l" = "malicious.example"
    ∧ hostOf "https://www.gov.uk/government/collections/approved-documents" = "www.gov.uk"
    ∧ ("malicious.example" : String) ≠ "www.gov.uk" := by
  decide

/-- C6 (amended): the hop loop fetches exactly (a prefix of) the
non-PDF URLs of the scored candidate list, in rank order, with no
domain restriction — every fetched URL is a candidate URL, whatever its
host. -/
theorem C6_amended_hop_urls (j : String) (pf : String → Option DetailPage) :
    ∀ cands : List (String × String), ∀ u ∈ hopFetchedURLs j pf cands,
      (∃ t, (u, t) ∈ cands) ∧ endsWithL (lowerStr u) ".pdf" = false := by
  intro cands
  induction cands with
  | nil => intro u hu; simp [hopFetchedURLs] at hu
  | cons a rest ih =>
    rcases a with ⟨x, t⟩
    intro u hu
    by_cases hpdf : endsWithL (lowerStr x) ".pdf"
    · simp [hopFetchedURLs, hpdf] at hu
    · simp only [hopFetchedURLs, hpdf, Bool.false_eq_true, if_false, ite_false] at hu
      rcases List.mem_cons.mp hu with hu | hu
      · subst hu
        exact ⟨⟨t, by simp⟩, Bool.eq_false_iff.mpr hpdf⟩
      · have htail : u ∈ hopFetchedURLs j pf rest := by
          rcases hpf : pf x with _ | page
          · simpa only [hpf] using hu
          · simp only [hpf] at hu
            rcases hfp : find_pdf_on_page page.anchors x j with ⟨o, s⟩
            rcases o with _ | pu
            · simpa only [hfp] using hu
            · simp only [hfp] at hu
              simp at hu
        rcases ih u htail with ⟨⟨t', ht'⟩, hnp⟩
        exact ⟨⟨t', by simp [ht']⟩, hnp⟩

/-- C6 (witness for the amended theorem): the cross-domain fetched URL
is indeed a candidate URL and not a direct PDF. -/
theorem C6_witness :
    (∃ t, (("https://malicious.example/part-l" : String), t)
        ∈ [(("https://malicious.example/part-l" : String), ("Part L guidance" : String))])
    ∧ endsWithL (lowerStr "https://malicious.example/part-l") ".pdf" = false :=
  C6_amended_hop_urls "england" (fun _ => none)
    [("https://malicious.example/part-l", "Part L guidance")]
    "https://malicious.example/part-l" (by decide)

/-- C7 (counterexample): the claim says fetch retries on any non-2xx
status.  A 304 response is not 2xx, yet `raise_for_status` does not
raise for it: the first attempt's 304 is returned as a success, with no
retry and no backoff sleep. -/
theorem C7_counterexample :
    fetchModel (fun _ => FetchOutcome.resp 304) 3 = (some 304, [])
    ∧ ¬(200 ≤ (304 : Nat) ∧ (304 : Nat) ≤ 299) := by
  refine ⟨by decide, by decide⟩

/-- C7 (amended): `fetch` makes up to `retries` attempts, retrying on
transport exceptions and on statuses in [400, 600) with a backoff of
`1.5 × (attempt + 1)` seconds after each failure; exhaustion returns a
`None` failure value, and every caller skips just the affected
site/candidate: a failed collection fetch or PDF fetch leaves the
registry untouched, a failed hop fetch moves to the next candidate, and
the site loop continues with the remaining sites. -/
theorem C7_amended_fetch_retry :
    (∀ (attempts : Nat → FetchOutcome) (n : Nat),
      (∀ k, k < n → isFail (attempts k) = true) →
        fetchModel attempts n = (none, (List.range n).map backoff))
    ∧ (∀ (attempts : Nat → FetchOutcome) (n jf s : Nat),
      jf < n → attempts jf = .resp s → statusRaises s = false →
      (∀ k, k < jf → isFail (attempts k) = true) →
        fetchModel attempts n = (some s, (List.range jf).map backoff))
    ∧ (∀ nm today env j coll reg, env.collPage = none →
        processSite nm today env j coll reg = (reg, none))
    ∧ (∀ env j u ltext rest h1 issued, endsWithL (lowerStr u) ".pdf" = false →
        env.pageFetch u = none →
        hopLoop env j ((u, ltext) :: rest) h1 issued = hopLoop env j rest h1 issued)
    ∧ (∀ nm today env j coll reg page out, env.collPage = some page →
        hopLoop env j (detail_candidates j page coll) "" "" = some out →
        env.pdfFetch out.1 = none →
        processSite nm today env j coll reg = (reg, none))
    ∧ (∀ nm today env j coll rest reg, env.collPage = none →
        runSites nm today ((j, coll, env) :: rest) reg = runSites nm today rest reg) := by
  refine ⟨?_, ?_, ?_, ?_, ?_, ?_⟩
  · intro attempts n h
    have := fetchGo_all_fail attempts n 0 (by intro k hk; simpa using h k hk)
    simpa [fetchModel] using this
  · intro attempts n jf s hn ha hs h
    have := fetchGo_success attempts jf n 0 s hn (by simpa using ha) hs
      (by intro k hk; simpa using h k hk)
    simpa [fetchModel] using this
  · intro nm today env j coll reg h
    simp [processSite, h]
  · intro env j u ltext rest h1 issued hpdf hpf
    simp [hopLoop, hpdf, hpf]
  · intro nm today env j coll reg page out hcoll hhop hpdf
    obtain ⟨u, lt2, tid, tt, is2, h12⟩ := out
    simp [processSite, hcoll, hhop, hpdf]
  · intro nm today env j coll rest reg h
    simp [runSites, processSite, h]

/-- C7 (witness for the amended theorem): three transport failures
exhaust the retries, returning `None` with backoffs 1.5 s, 3 s and
4.5 s. -/
theorem C7_witness :
    fetchModel (fun _ => FetchOutcome.exc) 3 = (none, (List.range 3).map backoff) :=
  C7_amended_fetch_retry.1 (fun _ => FetchOutcome.exc) 3 (fun _ _ => rfl)

/-- C8 (code_bug): not every reader accepts both registry shapes.
`render_site.py` does extract the same entries from either shape, but
`make_thumbs.py` raises `AttributeError` on a top-level list — despite
its own comment "support either root list or {items:[...]}" — and
`check_partl.py`'s `load_registry` returns the items-object unwrapped,
so the run cannot iterate its entries. -/
theorem C8_reader_divergence :
    render_items (some (RegJson.arr [demoEntry])) = [demoEntry]
    ∧ render_items (some (RegJson.itemsObj [demoEntry])) = [demoEntry]
    ∧ make_thumbs_items (RegJson.itemsObj [demoEntry]) = .ok [demoEntry]
    ∧ make_thumbs_items (RegJson.arr [demoEntry])
        = .error "AttributeError: list object has no attribute get"
    ∧ load_registry_cp (some (RegJson.itemsObj [demoEntry])) = RegJson.itemsObj [demoEntry]
    ∧ registryEntriesForRun (load_registry_cp (some (RegJson.itemsObj [demoEntry]))) = none
    ∧ registryEntriesForRun (load_registry_cp (some (RegJson.arr [demoEntry])))
        = some [demoEntry] := by
  refine ⟨rfl, rfl, rfl, rfl, rfl, rfl, rfl⟩

/-- C9 (confirmed): the candidate list handed to the hop loop is the
ranked list projected to (url, text); it has at most 12 elements, is
ordered by strictly descending score with ties broken by original
document order, contains no duplicate URL, consists only of
positively-scored page candidates, and each kept candidate has the
maximal score among all candidates sharing its URL. -/
theorem C9_candidate_ranking (j : String) (anchors : List (String × String)) (base : String) :
    detail_candidates j anchors base
      = (rankedCands j anchors base).map (fun c => (c.url, c.text))
    ∧ (rankedCands j anchors base).length ≤ 12
    ∧ (rankedCands j anchors base).Pairwise
        (fun a b => b.sc ≤ a.sc ∧ (b.sc = a.sc → a.idx < b.idx))
    ∧ ((rankedCands j anchors base).map Cand.url).Nodup
    ∧ (∀ c ∈ rankedCands j anchors base, c ∈ candList j anchors base)
    ∧ (∀ c ∈ rankedCands j anchors base, ∀ d ∈ candList j anchors base,
        d.url = c.url → d.sc ≤ c.sc) := by
  have hperm : (sortCands (candList j anchors base)).Perm (candList j anchors base) :=
    sortCands_perm _
  have hsorted : SortedC (sortCands (candList j anchors base)) := sortCands_sorted _
  have hidxL : ((candList j anchors base).map Cand.idx).Nodup :=
    candList_nodup_idx j anchors base
  have hidxS : ((sortCands (candList j anchors base)).map Cand.idx).Nodup :=
    ((hperm.map Cand.idx).nodup_iff).mpr hidxL
  have hsub : List.Sublist (dedupCands [] (sortCands (candList j anchors base)))
      (sortCands (candList j anchors base)) := dedupCands_sublist [] _
  have htake : List.Sublist (rankedCands j anchors base)
      (dedupCands [] (sortCands (candList j anchors base))) := List.take_sublist 12 _
  have hsubS : List.Sublist (rankedCands j anchors base)
      (sortCands (candList j anchors base)) := htake.trans hsub
  refine ⟨rfl, List.length_take_le 12 _, ?_, ?_, ?_, ?_⟩
  · have hsR : SortedC (rankedCands j anchors base) := hsorted.sublist hsubS
    have hiR : ((rankedCands j anchors base).map Cand.idx).Nodup :=
      hidxS.sublist (hsubS.map Cand.idx)
    have hiR' : (rankedCands j anchors base).Pairwise (fun a b => a.idx ≠ b.idx) :=
      List.pairwise_map.mp hiR
    refine (hsR.and hiR').imp ?_
    intro a b hab
    rcases hab with ⟨h1, h2⟩
    rw [candBefore_false_iff] at h1
    constructor
    · omega
    · intro hsc
      omega
  · have : ((dedupCands [] (sortCands (candList j anchors base))).map Cand.url).Nodup :=
      dedupCands_nodup_urls [] _
    rw [show (rankedCands j anchors base).map Cand.url
        = ((dedupCands [] (sortCands (candList j anchors base))).map Cand.url).take 12
        from List.map_take _ _ _]
    exact this.sublist (List.take_sublist 12 _)
  · intro c hc
    exact hperm.subset (hsubS.subset hc)
  · intro c hc d hd hdu
    exact dedupCands_max hsorted [] c (htake.subset hc) d (hperm.symm.subset hd) hdu

/-- C9 (witness): the ranking theorem applied to a concrete page. -/
theorem C9_witness :
    (rankedCands "england" [("Part L", "a.pdf"), ("Part L", "b.pdf")]
      "https://www.gov.uk/x").length ≤ 12 :=
  (C9_candidate_ranking "england" [("Part L", "a.pdf"), ("Part L", "b.pdf")]
    "https://www.gov.uk/x").2.1

/-- C10 (confirmed): every failure to read or parse
`registry/current.json` yields the empty list, and a run over an empty
registry classifies every successfully resolved document (distinct
slugs) as NEW. -/
theorem C10_load_registry_empty :
    load_registry_cp none = RegJson.arr []
    ∧ ∀ steps : List (String × String × Fresh),
        (steps.map (fun x => x.2.1)).Nodup →
        (runUpserts steps []).2 = steps.map (fun x => (x.2.1, "NEW")) := by
  refine ⟨rfl, ?_⟩
  intro steps hn
  exact runUpserts_all_new steps [] (by intro s _ e he; simp at he) hn

/-- C10 (witness): a run with one resolved document on an empty registry
records exactly one NEW tag. -/
theorem C10_witness :
    (runUpserts [("england", "england-part-l", demoFreshSame)] []).2
      = [("england-part-l", "NEW")] := by
  have h := C10_load_registry_empty.2 [("england", "england-part-l", demoFreshSame)]
    (by decide)
  simpa using h

end PartL
